import Mathlib

/-! # smallsh.c : command dispatch and background-job bookkeeping

A shallow embedding of `UNIX/program3/SmallShell/smallsh.c`.

* C strings are lists of characters (the bytes before the terminating NUL).
* The global variables of the program are the fields of `Shell`.
* What the operating system answers (return values of `fork`, `open`,
  `wait`, `waitpid`, `chdir`, ...) is an input of each function.
* What the shell process does to the outside world is recorded, in program
  order, as a list of `Action`s.
* Reads and writes outside an array, and uses of a NULL pointer as a string,
  have no defined result in C; the functions return a `Fault` there.
-/

namespace SmallShell

/-! ## Data model -/

/-- A C string: its characters up to, and without, the terminating NUL. -/
abbrev CStr := List Char

/-- The constant `#define MAX_BG_PROCESSES 100`. -/
def MAX_BG_PROCESSES : Nat := 100

/-- The constant `#define MAX_ARGUMENTS 512`. -/
def MAX_ARGUMENTS : Nat := 512

/-- The global variables of smallsh.c (lines 25-32). `bgPID` is the array
`pid_t bgPID[MAX_BG_PROCESSES]`, a list of its 100 cells. -/
structure Shell where
  backgroundON : Bool
  bgProcess : Bool
  bgPID : List Int
  bgSize : Nat
  childExitStatus : Int
  deriving DecidableEq, Repr

/-- The globals as the program starts: `backgroundON = true`,
`bgProcess = false`, `bgSize = 0`, the other statics zero-initialised. -/
def Shell.initial : Shell :=
  { backgroundON := true, bgProcess := false,
    bgPID := List.replicate MAX_BG_PROCESSES 0, bgSize := 0, childExitStatus := 0 }

/-- Points at which the C program has no defined behaviour. -/
inductive Fault where
  /-- `bgPID[i]` with `i` outside the array. -/
  | bgPIDOutOfBounds (i : Nat)
  /-- `tokenArray[numArgs - 1]` with `numArgs = 0`. -/
  | tokenArrayBeforeStart
  /-- `tokenArray[i]` with `i` beyond `MAX_ARGUMENTS`. -/
  | tokenArrayOverflow
  /-- A string function applied to a NULL pointer. -/
  | nullString
  /-- The cell `char tokeee[20]` written beyond its 20 bytes. -/
  | tokeeeOverflow
  /-- The cell `char currDir[2048]` written beyond its 2048 bytes. -/
  | currDirOverflow
  /-- The vector `arrayA` read beyond its `MAX_ARGUMENTS` entries. -/
  | arrayAOverrun
  deriving DecidableEq, Repr

/-- Flags given to `open`. -/
inductive OFlag where
  | O_RDONLY | O_WRONLY | O_CREAT | O_TRUNC
  deriving DecidableEq, Repr

/-- What the shell process does, as seen from outside, in program order. -/
inductive Action where
  /-- The call `fflush(stdout)`. -/
  | fflush
  /-- Text formatted by `printf` onto stdout. -/
  | printf (text : CStr)
  /-- Text formatted by `fprintf(stderr, ...)`. -/
  | eprintf (text : CStr)
  /-- The call `perror(text)`. -/
  | perror (text : CStr)
  /-- The call `write(fd, buf, count)`. -/
  | write (fd : Nat) (buf : CStr) (count : Nat)
  /-- The call `open(path, flags, mode)`. -/
  | openFile (path : CStr) (flags : List OFlag) (mode : Nat)
  /-- The call `fork()` and what it returned. -/
  | fork (ret : Int)
  /-- The call `sleep(secs)`. -/
  | sleep (secs : Nat)
  /-- The blocking call `wait(&childExitStatus)` and the process id it returned:
  that of whichever child of the shell it reaped. -/
  | wait (ret : Int)
  /-- The call `waitpid(pid, &status, options)`. -/
  | waitpid (pid : Int) (options : Nat)
  /-- The call `sigprocmask(SIG_UNBLOCK, &x, NULL)`. -/
  | sigUnblock
  /-- The call `chdir(path)`; `none` is a NULL path. -/
  | chdir (path : Option CStr)
  deriving DecidableEq, Repr

/-- The option `WNOHANG` of `waitpid`. -/
def WNOHANG : Nat := 1

/-- The descriptor `STDOUT_FILENO`. -/
def STDOUT_FILENO : Nat := 1

/-- Conversion `%d` of `printf`. -/
def dec : Int → CStr
  | .ofNat n => (Nat.repr n).toList
  | .negSucc n => '-' :: (Nat.repr (n + 1)).toList

/-- The texts a list of actions sends through `printf`, in order. -/
def printed : List Action → List CStr
  | [] => []
  | .printf t :: as => t :: printed as
  | _ :: as => printed as

/-! ## Wait-status macros of `<sys/wait.h>` -/

/-- The macro `WTERMSIG(s)`, that is `s & 0x7f`. -/
def WTERMSIG (s : Int) : Int := s % 128

/-- The macro `WEXITSTATUS(s)`, that is `(s & 0xff00) >> 8`. -/
def WEXITSTATUS (s : Int) : Int := (s / 256) % 256

/-- The macro `WIFEXITED(s)`, that is `WTERMSIG(s) == 0`. -/
def WIFEXITED (s : Int) : Bool := WTERMSIG s == 0

/-- The macro `WIFSIGNALED(s)`, that is `((signed char)((s & 0x7f) + 1) >> 1) > 0`:
the low seven bits are neither 0 (exited) nor 0x7f (stopped). -/
def WIFSIGNALED (s : Int) : Bool := decide (1 ≤ s % 128 ∧ s % 128 ≤ 126)

/-! ## catchSIGTSTP (lines 44-60) -/

/-- The literal `message1` of `catchSIGTSTP`. -/
def message1 : CStr := "\nEntering foreground-only mode (& is now ignored)\n: ".toList

/-- The literal `message2` of `catchSIGTSTP`. -/
def message2 : CStr := "\nExiting foreground-only mode\n: ".toList

/-- The bytes `write(fd, buf, count)` sends when `buf` is a string literal:
the first `count` bytes of the literal and its terminating NUL; reading
further is outside the literal. -/
def bytesWritten (buf : CStr) (count : Nat) : Option CStr :=
  if count ≤ buf.length + 1 then some ((buf ++ [Char.ofNat 0]).take count) else none

/-- The handler `catchSIGTSTP`: the new globals and the calls made. -/
def catchSIGTSTP (st : Shell) : Shell × List Action :=
  if st.backgroundON == true then
    ({ st with backgroundON := false },
      [.fflush, .write STDOUT_FILENO message1 52, .fflush])
  else
    ({ st with backgroundON := true },
      [.write STDOUT_FILENO message2 32, .fflush])

/-! ## bgFinishedProcesses (lines 71-103) -/

/-- The lines printed for one reaped child (lines 83-97). -/
def bgReport (arrayPID status : Int) : List Action :=
  [.fflush, .printf ("background pid ".toList ++ dec arrayPID ++ " is done. ".toList), .fflush] ++
  (if WIFEXITED status then
    [.fflush, .printf ("exit value ".toList ++ dec (WEXITSTATUS status) ++ "\n".toList), .fflush]
   else if WIFSIGNALED status then
    [.fflush, .printf ("terminated by signal ".toList ++ dec (WTERMSIG status) ++ " \n".toList),
      .fflush]
   else [])

/-- The `for` loop of `bgFinishedProcesses`, with `n` iterations left to run
from index `i`. `waitRes i` is what `waitpid(bgPID[i], &status, WNOHANG)`
answers at index `i`: its return value and the status it stores. -/
def bgFinishedLoop (waitRes : Nat → Int × Int) :
    Nat → Nat → List Int → Except Fault (List Int × List Action)
  | 0, _, tbl => .ok (tbl, [])
  | n + 1, i, tbl =>
    match tbl[i]? with
    | none => .error (.bgPIDOutOfBounds i)
    | some p =>
      if p != -1 then
        let arrayPID := (waitRes i).1
        let status := (waitRes i).2
        if arrayPID > 0 then
          match bgFinishedLoop waitRes n (i + 1) (tbl.set i (-1)) with
          | .ok (tbl', tr) => .ok (tbl', .waitpid p WNOHANG :: bgReport arrayPID status ++ tr)
          | .error f => .error f
        else
          match bgFinishedLoop waitRes n (i + 1) tbl with
          | .ok (tbl', tr) => .ok (tbl', .waitpid p WNOHANG :: tr)
          | .error f => .error f
      else bgFinishedLoop waitRes n (i + 1) tbl

/-- The function `bgFinishedProcesses`. -/
def bgFinishedProcesses (waitRes : Nat → Int × Int) (st : Shell) :
    Except Fault (Shell × List Action) :=
  match bgFinishedLoop waitRes st.bgSize 0 st.bgPID with
  | .ok (tbl, tr) => .ok ({ st with bgPID := tbl }, tr)
  | .error f => .error f

/-! ## getUserCommand (lines 113-136) -/

/-- The test of line 126: `strncmp(lineEntered, "#", 1) == 0 || strlen(lineEntered) == 1`. -/
def discarded (lineEntered : CStr) : Bool :=
  lineEntered.head? == some '#' || lineEntered.length == 1

/-- The function `getUserCommand` over the lines `getline` still has to deliver:
the line returned and the lines left to read. A discarded line is zeroed (line
128) and the loop reads on. When the input has ended `getline` returns -1 and
stores nothing, the loop is not left at that point, and line 126 tests the
buffer as it is, an empty string: it is not discarded and is returned. -/
def getUserCommand : List CStr → CStr × List CStr
  | [] => ([], [])
  | lineEntered :: rest =>
    if discarded lineEntered then getUserCommand rest else (lineEntered, rest)

/-! ## The tokenizer of main (lines 494-545) -/

/-- The tokens the successive calls `strtok(lineEntered, " ")`, `strtok(NULL, " ")`
return: the maximal runs of characters other than the space. -/
def strtokAll : CStr → List CStr
  | [] => []
  | c :: cs =>
    if c == ' ' then strtokAll cs
    else
      match cs.head? with
      | none => [[c]]
      | some d =>
        if d == ' ' then [c] :: strtokAll cs
        else
          match strtokAll cs with
          | t :: ts => (c :: t) :: ts
          | [] => [[c]]

/-- The test `strstr(token, "$$") != NULL`. -/
def strstrDollars : CStr → Bool
  | [] => false
  | c :: cs => (c == '$' && cs.head? == some '$') || strstrDollars cs

/-- Where a `char *` of the tokenizer points: at the `i`-th token inside the
buffer `lineEntered`, or at the local array `tokeee`. -/
inductive Ptr where
  | line (i : Nat)
  | tokeee
  deriving DecidableEq, Repr

/-- The strings the pointers of main point at: the tokens `strtok` carved out
of `lineEntered`, each a NUL-terminated cell of its own, and `char tokeee[20]`. -/
structure Mem where
  line : List CStr
  tokeee : CStr
  deriving DecidableEq, Repr

/-- The string a pointer points at. -/
def Mem.read (m : Mem) : Ptr → CStr
  | .line i => m.line.getD i []
  | .tokeee => m.tokeee

/-- Overwrite the string a pointer points at. -/
def Mem.store (m : Mem) (p : Ptr) (s : CStr) : Mem :=
  match p with
  | .line i => { m with line := m.line.set i s }
  | .tokeee => { m with tokeee := s }

/-- The array `tokenArray` (its first `numArgs` entries; the entries after
them are NULL) and the strings its entries point at. -/
structure Tokens where
  mem : Mem
  tokenArray : List Ptr
  deriving DecidableEq, Repr

/-- The string `piddy`: `snprintf(piddy, 10, "%d", (int)getpid())`. -/
def piddyOf (pid : Int) : CStr := (dec pid).take 9

/-- The `while (token != NULL)` loop of lines 506-536 over the tokens `strtok`
returns. A token holding `$$` is cut at its first `$` (`strchr`), the cut
token and `piddy` are appended to `tokeee` by `strcat`, and the entry of
`tokenArray` is the address of `tokeee`. -/
def tokenizeLoop (piddy : CStr) : List CStr → Tokens → Except Fault Tokens
  | [], s => .ok s
  | token :: rest, s =>
    if MAX_ARGUMENTS ≤ s.tokenArray.length then .error .tokenArrayOverflow
    else if strstrDollars token then
      let tokenCopy := token.takeWhile (fun c => c != '$')
      let cat1 := s.mem.tokeee ++ tokenCopy
      if 20 ≤ cat1.length then .error .tokeeeOverflow
      else
        let cat2 := cat1 ++ piddy
        if 20 ≤ cat2.length then .error .tokeeeOverflow
        else
          tokenizeLoop piddy rest
            { mem := { line := s.mem.line ++ [tokenCopy], tokeee := cat2 },
              tokenArray := s.tokenArray ++ [.tokeee] }
    else
      tokenizeLoop piddy rest
        { mem := { s.mem with line := s.mem.line ++ [token] },
          tokenArray := s.tokenArray ++ [.line s.tokenArray.length] }

/-- The loop of lines 540-545: each `tokenArray[j]` is cut at its first newline. -/
def stripNewlines : List Ptr → Mem → Mem
  | [], m => m
  | p :: ps, m => stripNewlines ps (m.store p ((m.read p).takeWhile (fun c => c != '\n')))

/-- Lines 499-545: `tokeee` zeroed, the line tokenized, the newlines removed. -/
def tokenize (piddy : CStr) (lineEntered : CStr) : Except Fault Tokens :=
  match tokenizeLoop piddy (strtokAll lineEntered)
      { mem := { line := [], tokeee := [] }, tokenArray := [] } with
  | .ok t => .ok { t with mem := stripNewlines t.tokenArray t.mem }
  | .error f => .error f

/-- The strings of a list of pointers. -/
def Mem.readAll (m : Mem) (ps : List Ptr) : List CStr := ps.map m.read

/-! ## The classifier of main (lines 546-591) -/

/-- Lines 556-565: when the last token is `&` it is replaced by NULL,
`numArgs` decreases, and `bgProcess` becomes `backgroundON`. The result is the
token array and `bgProcess`. -/
def markBackground (backgroundON bgProcess : Bool) (m : Mem) (tokenArray : List Ptr) :
    Except Fault (List Ptr × Bool) :=
  match tokenArray.getLast? with
  | none => .error .tokenArrayBeforeStart
  | some p =>
    if m.read p == "&".toList then
      .ok (tokenArray.dropLast, if backgroundON == true then true else false)
    else .ok (tokenArray, bgProcess)

/-- The variables of the loop of lines 568-591. `redirA` and `arrayA` are the
entries written so far (`j` and `arAid` are their lengths). The entries of the
array `arrayA` after them are NULL below index 64 and are those of
`Env.arrayAStale` from there on; `arrayAVector` is the vector read from it. -/
structure Scan where
  mem : Mem
  tempy : Nat
  redirA : List Ptr
  arrayA : List Ptr
  deriving DecidableEq, Repr

/-- The loop of lines 568-591 over `tokenArray[0 .. numArgs-1]`. The test
`strncmp(tokenArray[i], ">", 1) == 0` holds when the first character is `>`. -/
def scanLoop (piddy : CStr) : List Ptr → Scan → Scan
  | [], s => s
  | p :: ps, s =>
    if (s.mem.read p).head? == some '>' then
      scanLoop piddy ps { s with tempy := s.tempy + 1, redirA := s.redirA ++ [p] }
    else if (s.mem.read p).head? == some '<' then
      scanLoop piddy ps { s with tempy := s.tempy + 1, redirA := s.redirA ++ [p] }
    else if s.tempy == 0 then
      if s.mem.read p == "$$".toList then
        scanLoop piddy ps
          { s with arrayA := s.arrayA ++ [p], mem := (s.mem.store p piddy).store p piddy }
      else scanLoop piddy ps { s with arrayA := s.arrayA ++ [p] }
    else scanLoop piddy ps s

/-- The classifier: lines 546-591. -/
structure Parsed where
  tokenArray : List Ptr
  bgProcess : Bool
  scan : Scan
  deriving DecidableEq, Repr

/-- Lines 546-591 on the tokenizer's result. -/
def classify (piddy : CStr) (backgroundON bgProcess : Bool) (t : Tokens) :
    Except Fault Parsed :=
  match markBackground backgroundON bgProcess t.mem t.tokenArray with
  | .error f => .error f
  | .ok (toks, bg) =>
    .ok { tokenArray := toks, bgProcess := bg,
          scan := scanLoop piddy toks { mem := t.mem, tempy := 0, redirA := [], arrayA := [] } }

/-! ## The commands (lines 146-420) -/

/-- What one command finds around it: the answers of the operating system, and
what earlier iterations of the main loop left in the stack array `arrayA`. -/
structure Env where
  /-- Return value of `fork()`. -/
  forkRet : Int
  /-- Return value of the first `open`. -/
  openRet : Int
  /-- Return value of the second `open` of `multRedirectionCommand`. -/
  openRet2 : Int
  /-- Return value of the blocking `wait` or `waitpid`. -/
  waitRet : Int
  /-- The status that call stores when it returns a process id. -/
  waitStatus : Int
  /-- Value of `getenv("HOME")`, `none` when it is NULL. -/
  home : Option CStr
  /-- The string `getcwd` writes into `currDir`. -/
  cwd : CStr
  /-- Return value of `chdir`. -/
  chdirRet : Int
  /-- The entries `arrayA[64]`, `arrayA[65]`, ... up to `arrayA[511]` as the
  loop of lines 568-591 finds them: `memset(arrayA, '\0', MAX_ARGUMENTS)` of
  line 548 clears 512 bytes, the first 64 pointers, and leaves these as they
  were. `none` is a NULL entry, `some s` a pointer at which the string `s` is
  read. -/
  arrayAStale : List (Option CStr)
  deriving DecidableEq, Repr

/-- The program image a forked child asks for; the child is another process
and is followed no further. -/
inductive ChildRun where
  /-- The call `execvp(argv[0], argv)`. -/
  | execvp (argv : List CStr)
  /-- The call `execlp(file, arg0, NULL)`. -/
  | execlp (file : CStr) (arg0 : CStr)
  /-- The call `kill(getpid(), SIGKILL)`. -/
  | killSelf
  deriving DecidableEq, Repr

/-- How a command ends for the process that runs it. -/
inductive Outcome where
  /-- The function returned: the main loop goes on to the next prompt. -/
  | prompt (st : Shell)
  /-- The process called `exit(code)`. -/
  | exited (code : Nat)
  /-- This process is the forked child. -/
  | child (run : ChildRun)
  /-- Undefined behaviour was reached. -/
  | fault (f : Fault)
  deriving DecidableEq, Repr

/-- The value of `childExitStatus` after `wait(&childExitStatus)` or
`waitpid(pid, &childExitStatus, 0)`: the status is stored when a child was
waited for. -/
def waitStore (env : Env) (childExitStatus : Int) : Int :=
  if env.waitRet > 0 then env.waitStatus else childExitStatus

/-- The function `cdCommand` (lines 146-163). -/
def cdCommand (env : Env) (st : Shell) (m : Mem) (myArray : List Ptr) :
    List Action × Outcome :=
  if myArray.length == 1 then ([.chdir env.home], .prompt st)
  else
    match myArray[1]? with
    | none => ([], .fault .nullString)
    | some p =>
      let currDir := env.cwd ++ "/".toList ++ m.read p
      if 2048 ≤ currDir.length then ([], .fault .currDirOverflow)
      else if env.chdirRet != 0 then
        ([.chdir (some currDir), .perror "No such directory".toList], .prompt st)
      else ([.chdir (some currDir)], .prompt st)

/-- The function `exitCommand` (lines 174-197). -/
def exitCommand (env : Env) (st : Shell) : List Action × Outcome :=
  if env.forkRet < 0 then ([.fork env.forkRet, .perror "error".toList], .prompt st)
  else if env.forkRet == 0 then ([.fork env.forkRet], .child .killSelf)
  else ([.fork env.forkRet, .fflush, .sleep 1, .wait env.waitRet, .fflush], .exited 0)

/-- The function `statusCommand` (lines 207-222). -/
def statusCommand (st : Shell) : List Action :=
  if WIFEXITED st.childExitStatus then
    [.fflush, .printf ("exit value ".toList ++ dec (WEXITSTATUS st.childExitStatus) ++ "\n".toList),
      .fflush]
  else if WIFSIGNALED st.childExitStatus then
    [.fflush,
      .printf ("terminated by signal ".toList ++ dec (WTERMSIG st.childExitStatus) ++ " \n".toList),
      .fflush]
  else []

/-- Number of entries of `arrayA` that `memset(arrayA, '\0', MAX_ARGUMENTS)`
clears: 512 bytes of 8-byte pointers. -/
def ARRAYA_CLEARED : Nat := MAX_ARGUMENTS / 8

/-- The strings read from a run of uncleared entries of `arrayA` up to the first
NULL one; `none` when the run ends before a NULL entry is met. -/
def readStale : List (Option CStr) → Option (List CStr)
  | [] => none
  | none :: _ => some []
  | some s :: rest =>
    match readStale rest with
    | some tail => some (s :: tail)
    | none => none

/-- The argument vector `execvp(arrayA[0], arrayA)` reads: the entries of
`arrayA` up to the first NULL one. With fewer than 64 entries written the
entry after them was cleared by line 548; otherwise the vector runs on into
the entries line 548 left as they were. -/
def arrayAVector (env : Env) (m : Mem) (arrayA : List Ptr) : Except Fault (List CStr) :=
  if arrayA.length < ARRAYA_CLEARED then .ok (m.readAll arrayA)
  else
    match readStale (env.arrayAStale.drop (arrayA.length - ARRAYA_CLEARED)) with
    | some tail => .ok (m.readAll arrayA ++ tail)
    | none => .error .arrayAOverrun

/-- The function `redirectCommand` (lines 234-302). The file opened is
`tokenArray[numArgs - 1]`. -/
def redirectCommand (env : Env) (st : Shell) (m : Mem) (redirA tokenArray arrayA : List Ptr) :
    List Action × Outcome :=
  match redirA.head?, tokenArray.getLast? with
  | none, _ => ([], .fault .nullString)
  | _, none => ([], .fault .tokenArrayBeforeStart)
  | some r, some last =>
    if (m.read r).head? == some '>' then
      let opened : List Action :=
        .openFile (m.read last) [.O_CREAT, .O_TRUNC, .O_WRONLY] 0o664 ::
          (if env.openRet == -1 then
            [.fflush, .eprintf ("Cannot open ".toList ++ m.read last ++ " for input".toList)]
           else [])
      if env.forkRet < 0 then
        (opened ++ [.fork env.forkRet, .perror "error".toList], .exited 1)
      else if env.forkRet == 0 then
        match arrayAVector env m arrayA with
        | .ok argv => (opened ++ [.fork env.forkRet], .child (.execvp argv))
        | .error f => (opened ++ [.fork env.forkRet], .fault f)
      else
        (opened ++ [.fork env.forkRet, .fflush, .sleep 1, .wait env.waitRet],
          .prompt { st with childExitStatus := waitStore env st.childExitStatus })
    else if (m.read r).head? == some '<' then
      if env.openRet == -1 then
        ([.openFile (m.read last) [.O_RDONLY] 0o664,
          .eprintf ("cannot open ".toList ++ m.read last ++ " for input\n".toList)], .prompt st)
      else if env.forkRet < 0 then
        ([.openFile (m.read last) [.O_RDONLY] 0o664, .fork env.forkRet, .printf "error".toList],
          .exited 1)
      else if env.forkRet == 0 then
        match tokenArray.head? with
        | some p0 =>
          ([.openFile (m.read last) [.O_RDONLY] 0o664, .fork env.forkRet],
            .child (.execlp (m.read p0) (m.read p0)))
        | none => ([.openFile (m.read last) [.O_RDONLY] 0o664, .fork env.forkRet], .fault .nullString)
      else
        ([.openFile (m.read last) [.O_RDONLY] 0o664, .fork env.forkRet, .fflush, .sleep 1,
          .wait env.waitRet],
          .prompt { st with childExitStatus := waitStore env st.childExitStatus })
    else ([], .prompt st)

/-- The function `multRedirectionCommand` (lines 313-350). -/
def multRedirectionCommand (env : Env) (st : Shell) (m : Mem) (tokenArray : List Ptr) :
    List Action × Outcome :=
  if tokenArray.length < 3 then ([], .fault .tokenArrayBeforeStart)
  else
    match tokenArray[tokenArray.length - 3]?, tokenArray.getLast? with
    | some pin, some pout =>
      let open0 : List Action :=
        .openFile (m.read pin) [.O_RDONLY] 0o664 ::
          (if env.openRet == -1 then
            [.printf ("Cannot open ".toList ++ m.read pin ++ " for input".toList)] else [])
      let st1 : Shell := if env.openRet == -1 then { st with childExitStatus := 1 } else st
      let open1 : List Action :=
        .openFile (m.read pout) [.O_CREAT, .O_TRUNC, .O_WRONLY] 0o664 ::
          (if env.openRet2 == -1 then
            [.eprintf ("cannot open ".toList ++ m.read pout ++ " for input".toList)] else [])
      if env.forkRet < 0 then
        (open0 ++ open1 ++ [.fork env.forkRet, .printf "error".toList], .exited 1)
      else if env.forkRet == 0 then
        (open0 ++ open1 ++ [.fork env.forkRet], .child (.execlp "wc".toList "wc".toList))
      else
        (open0 ++ open1 ++ [.fork env.forkRet, .fflush, .sleep 1, .wait env.waitRet],
          .prompt { st1 with childExitStatus := waitStore env st1.childExitStatus })
    | _, _ => ([], .fault .tokenArrayBeforeStart)

/-- The parent branch of `otherCommands` (lines 396-419), `pid > 0` being what
`fork` returned. In the background branch `bgPID[bgSize] = pid` is a write
outside the array once `bgSize` has reached its length. -/
def otherCommandsParent (env : Env) (st : Shell) (pid : Int) : List Action × Outcome :=
  if st.bgProcess == false then
    let st1 : Shell := { st with childExitStatus := waitStore env st.childExitStatus }
    ([.fflush, .waitpid pid 0, .sigUnblock, .fflush] ++
      (if WIFSIGNALED st1.childExitStatus then
        [.fflush,
          .printf ("terminated by signal ".toList ++ dec (WTERMSIG st1.childExitStatus) ++
            "\n".toList),
          .fflush]
       else []),
      .prompt st1)
  else
    if st.bgSize < st.bgPID.length then
      ([.fflush, .fflush, .printf ("background pid is ".toList ++ dec pid ++ "\n".toList)],
        .prompt { st with bgPID := st.bgPID.set st.bgSize pid, bgSize := st.bgSize + 1 })
    else
      ([.fflush, .fflush, .printf ("background pid is ".toList ++ dec pid ++ "\n".toList)],
        .fault (.bgPIDOutOfBounds st.bgSize))

/-- The function `otherCommands` (lines 361-420). -/
def otherCommands (env : Env) (st : Shell) (m : Mem) (tokenArray : List Ptr) :
    List Action × Outcome :=
  if env.forkRet < 0 then ([.fork env.forkRet, .printf "error".toList], .exited 1)
  else if env.forkRet == 0 then ([.fork env.forkRet], .child (.execvp (m.readAll tokenArray)))
  else
    (.fork env.forkRet :: (otherCommandsParent env st env.forkRet).1,
      (otherCommandsParent env st env.forkRet).2)

/-! ## Dispatch (lines 593-617) and one command line -/

/-- Lines 593-617. `tokenArray[0]` is NULL when no token is left, and
`arrayA[0]` is NULL when the loop filled no entry of `arrayA`. -/
def dispatch (env : Env) (st : Shell) (p : Parsed) : List Action × Outcome :=
  match p.tokenArray.head? with
  | none => ([.fflush], .fault .nullString)
  | some p0 =>
    if (p.scan.mem.read p0).take 2 == "cd".toList then
      (.fflush :: (cdCommand env st p.scan.mem p.tokenArray).1,
        (cdCommand env st p.scan.mem p.tokenArray).2)
    else
      match p.scan.arrayA.head? with
      | none => ([.fflush], .fault .nullString)
      | some a0 =>
        if p.scan.mem.read a0 == "exit".toList then
          (.fflush :: (exitCommand env st).1, (exitCommand env st).2)
        else if p.scan.mem.read a0 == "status".toList then
          (.fflush :: statusCommand st, .prompt st)
        else if p.scan.tempy == 1 then
          (.fflush ::
            (redirectCommand env st p.scan.mem p.scan.redirA p.tokenArray p.scan.arrayA).1,
            (redirectCommand env st p.scan.mem p.scan.redirA p.tokenArray p.scan.arrayA).2)
        else if p.scan.tempy > 1 then
          (.fflush :: (multRedirectionCommand env st p.scan.mem p.tokenArray).1,
            (multRedirectionCommand env st p.scan.mem p.tokenArray).2)
        else
          (.fflush :: (otherCommands env st p.scan.mem p.tokenArray).1,
            (otherCommands env st p.scan.mem p.tokenArray).2)

/-- Lines 546-617 of the main loop on the tokenizer's result: classifier, then
dispatch with the global `bgProcess` the classifier has set. -/
def runTokens (pid : Int) (env : Env) (st : Shell) (t : Tokens) : List Action × Outcome :=
  match classify (piddyOf pid) st.backgroundON st.bgProcess t with
  | .error f => ([], .fault f)
  | .ok p => dispatch env { st with bgProcess := p.bgProcess } p

/-- Lines 494-617 of the main loop on the line `getUserCommand` returned:
tokenizer, classifier, dispatch. The `fflush` calls of the tokenizer loop are
not recorded. -/
def commandLine (pid : Int) (env : Env) (st : Shell) (lineEntered : CStr) :
    List Action × Outcome :=
  match tokenize (piddyOf pid) lineEntered with
  | .error f => ([], .fault f)
  | .ok t => runTokens pid env st t

/-! ## Observations used to state the properties -/

/-- The bytes the `write` calls of a list of actions send to descriptor `fd`,
in order; `none` when a call reads outside its buffer. -/
def writtenTo (fd : Nat) : List Action → Option CStr
  | [] => some []
  | .write fd' buf count :: as =>
    if fd' = fd then
      match bytesWritten buf count, writtenTo fd as with
      | some b, some r => some (b ++ r)
      | _, _ => none
    else writtenTo fd as
  | _ :: as => writtenTo fd as

/-- The message of line 415, `printf("background pid is %d\n", pid)`. -/
def bgPidMsg (pid : Int) : Action :=
  .printf ("background pid is ".toList ++ dec pid ++ "\n".toList)

/-- The actions wait for child `pid`: they hold a `wait(..)` that returned `pid`
or a blocking `waitpid(pid, .., 0)`. -/
def waitsFor (pid : Int) : List Action → Bool
  | [] => false
  | .wait ret :: as => ret == pid || waitsFor pid as
  | .waitpid p options :: as => (p == pid && options == 0) || waitsFor pid as
  | _ :: as => waitsFor pid as

/-- Every `fork` that returned a child's process id to this process is followed
by a wait for that child. -/
def forkThenWait : List Action → Bool
  | [] => true
  | .fork c :: as => (decide (c ≤ 0) || waitsFor c as) && forkThenWait as
  | _ :: as => forkThenWait as

/-- What a command that was not launched in the background leaves behind: no
message of a background launch, and, when it comes back to the prompt, the job
table, `bgSize` and `bgProcess` as they were. -/
def ranInForeground (st : Shell) (r : List Action × Outcome) : Prop :=
  (∀ pid, bgPidMsg pid ∉ r.1) ∧
  ∀ st', r.2 = .prompt st' →
    st'.bgPID = st.bgPID ∧ st'.bgSize = st.bgSize ∧ st'.bgProcess = st.bgProcess

/-- Lines 499-591 on a line: tokenizer, then classifier. -/
def parseLine (pid : Int) (backgroundON bgProcess : Bool) (lineEntered : CStr) :
    Except Fault Parsed :=
  match tokenize (piddyOf pid) lineEntered with
  | .ok t => classify (piddyOf pid) backgroundON bgProcess t
  | .error f => .error f

/-- The `open` calls among a list of actions, in order: path, flags, mode. -/
def opened : List Action → List (CStr × List OFlag × Nat)
  | [] => []
  | .openFile path flags mode :: as => (path, flags, mode) :: opened as
  | _ :: as => opened as

/-- The strings of the token sequence the tokenizer produces for a line. -/
def tokenStrings (pid : Int) (lineEntered : CStr) : Except Fault (List CStr) :=
  match tokenize (piddyOf pid) lineEntered with
  | .ok t => .ok (t.mem.readAll t.tokenArray)
  | .error f => .error f

/-- Index `i` of the table holds a live entry (not `-1`) and the non-blocking
wait made there returned a process id: the branch of line 82 is taken. -/
def reapedAt (waitRes : Nat → Int × Int) (tbl : List Int) (i : Nat) : Bool :=
  match tbl[i]? with
  | some p => p != -1 && decide (0 < (waitRes i).1)
  | none => false

/-- A token the loop of lines 568-591 counts as a redirection operator: its
first character is `>` or `<`. -/
def isRedirect (t : CStr) : Bool := t.head? == some '>' || t.head? == some '<'

/-! ## Background activity -/

/-- The two things that happen to background jobs: a background dispatch (the
parent branch of `otherCommands` with `bgProcess` true, `fork` having returned
`pid`) and a poll (`bgFinishedProcesses` with the given wait results). -/
inductive BgEvent where
  | dispatch (env : Env) (pid : Int)
  | poll (waitRes : Nat → Int × Int)

/-- One background event on the globals. -/
def bgStep (st : Shell) : BgEvent → Outcome
  | .dispatch env pid => (otherCommandsParent env { st with bgProcess := true } pid).2
  | .poll waitRes =>
    match bgFinishedProcesses waitRes st with
    | .ok (st', _) => .prompt st'
    | .error f => .fault f

/-- A sequence of background events, stopping at the first one that does not
come back to the prompt. -/
def runBg : List BgEvent → Shell → Outcome
  | [], st => .prompt st
  | e :: es, st =>
    match bgStep st e with
    | .prompt st' => runBg es st'
    | o => o

/-- Number of background dispatches in a sequence of events. -/
def dispatches : List BgEvent → Nat
  | [] => 0
  | .dispatch _ _ :: es => dispatches es + 1
  | .poll _ :: es => dispatches es

/-! ## Sample inputs -/

/-- A job table with three jobs outstanding. -/
def sampleTable : Shell :=
  { Shell.initial with bgPID := 101 :: 102 :: 103 :: List.replicate 97 0, bgSize := 3 }

/-- Wait results for `sampleTable`: only the job at index 1 has terminated, with
exit value 3 (status `3 << 8`). -/
def sampleWaits : Nat → Int × Int := fun i => if i = 1 then (102, 768) else (0, 0)

/-- Surroundings used in the examples: `fork` returns 4321, both `open` calls
succeed, the blocking wait returns the child with status 0, the uncleared
entries of `arrayA` happen to be NULL. -/
def sampleEnv : Env :=
  { forkRet := 4321, openRet := 3, openRet2 := 4, waitRet := 4321, waitStatus := 0,
    home := some "/root".toList, cwd := "/tmp".toList, chdirRet := 0,
    arrayAStale := List.replicate 448 none }

/-- One hundred background dispatches, then a poll that finds every job
terminated. -/
def fullRun : List BgEvent :=
  List.replicate 100 (BgEvent.dispatch sampleEnv 700) ++ [BgEvent.poll (fun _ => (700, 0))]

/-- The globals after `fullRun`: every slot used once and cleared. -/
def fullState : Shell :=
  { backgroundON := true, bgProcess := true, bgPID := List.replicate 100 (-1), bgSize := 100,
    childExitStatus := 0 }

/-- The tokens of the line `sort < in.txt -r &` as the tokenizer leaves them. -/
def sampleTokens : Tokens :=
  { mem := { line := ["sort".toList, "<".toList, "in.txt".toList, "-r".toList, "&".toList],
             tokeee := [] },
    tokenArray := [.line 0, .line 1, .line 2, .line 3, .line 4] }

/-- Foreground-only mode with one background job, 19991, launched before the
mode was entered and still in the table. -/
def oneJobFgOnly : Shell :=
  { backgroundON := false, bgProcess := false, bgPID := 19991 :: List.replicate 99 0,
    bgSize := 1, childExitStatus := 0 }

/-- Surroundings in which `fork` returns 19992 and the blocking `wait` reaps the
older child 19991, which has exited with value 0. -/
def otherChildEnv : Env := { sampleEnv with forkRet := 19992, waitRet := 19991, waitStatus := 0 }

/-- Surroundings of a forked child (`fork` returned 0) in which the entries 64 to
69 of `arrayA` still hold the pointers an earlier line of seventy words left
there. -/
def staleEnv : Env :=
  { sampleEnv with
    forkRet := 0,
    arrayAStale := [some "w64".toList, some "w65".toList, some "w66".toList,
      some "w67".toList, some "w68".toList, some "w69".toList] ++ List.replicate 442 none }

/-- The line of sixty-four words `a` followed by `> f`. -/
def longLine : CStr := (List.replicate 64 "a ".toList).flatten ++ "> f\n".toList

/-- What the classifier makes of `sampleTokens` while background is allowed. -/
def sampleParsed : Parsed :=
  { tokenArray := [.line 0, .line 1, .line 2, .line 3], bgProcess := true,
    scan := { mem := sampleTokens.mem, tempy := 1, redirA := [.line 1], arrayA := [.line 0] } }

/-! # Properties -/

/-! ## catchSIGTSTP -/

/-- Claim C7. One run of the handler `catchSIGTSTP` negates `backgroundON`, keeps
the job table, `bgSize` and `childExitStatus`, sends nothing through `printf`,
and the bytes its `write` call sends to standard output are exactly the whole
entering message when background was allowed and exactly the whole exiting
message otherwise; the counts 52 and 32 are the lengths of the two literals;
a second run gives back the globals the first one started from. -/
theorem catchSIGTSTP_toggle (st : Shell) :
    (catchSIGTSTP st).1.backgroundON = (!st.backgroundON) ∧
    (catchSIGTSTP st).1.bgPID = st.bgPID ∧
    (catchSIGTSTP st).1.bgSize = st.bgSize ∧
    (catchSIGTSTP st).1.childExitStatus = st.childExitStatus ∧
    printed (catchSIGTSTP st).2 = [] ∧
    writtenTo STDOUT_FILENO (catchSIGTSTP st).2 =
      some (if st.backgroundON then
          "\nEntering foreground-only mode (& is now ignored)\n: ".toList
        else "\nExiting foreground-only mode\n: ".toList) ∧
    message1.length = 52 ∧ message2.length = 32 ∧
    (catchSIGTSTP (catchSIGTSTP st).1).1 = st := by
  obtain ⟨bon, bp, tbl, sz, ces⟩ := st
  cases bon
  · refine ⟨rfl, rfl, rfl, rfl, rfl, ?_, by decide, by decide, rfl⟩
    show writtenTo STDOUT_FILENO [.write STDOUT_FILENO message2 32, .fflush] =
      some "\nExiting foreground-only mode\n: ".toList
    decide
  · refine ⟨rfl, rfl, rfl, rfl, rfl, ?_, by decide, by decide, rfl⟩
    show writtenTo STDOUT_FILENO [.fflush, .write STDOUT_FILENO message1 52, .fflush] =
      some "\nEntering foreground-only mode (& is now ignored)\n: ".toList
    decide

/-! ## bgFinishedProcesses -/

theorem printed_append (a b : List Action) : printed (a ++ b) = printed a ++ printed b := by
  induction a with
  | nil => rfl
  | cons x xs ih => cases x <;> simp [printed, ih]

theorem reapedAt_set_of_ne (waitRes : Nat → Int × Int) (tbl : List Int) (i k : Nat) (v : Int)
    (h : i ≠ k) : reapedAt waitRes (tbl.set i v) k = reapedAt waitRes tbl k := by
  simp [reapedAt, List.getElem?_set, h]

theorem bgFinishedLoop_spec (waitRes : Nat → Int × Int) (n : Nat) :
    ∀ (i : Nat) (tbl : List Int), i + n ≤ tbl.length →
      ∃ tbl' tr, bgFinishedLoop waitRes n i tbl = .ok (tbl', tr) ∧
        tbl'.length = tbl.length ∧
        (∀ k, (k < i ∨ i + n ≤ k) → tbl'[k]? = tbl[k]?) ∧
        (∀ k, i ≤ k → k < i + n →
          tbl'[k]? = if reapedAt waitRes tbl k then some (-1) else tbl[k]?) ∧
        printed tr = ((List.range' i n).filter (reapedAt waitRes tbl)).flatMap
          (fun k => printed (bgReport (waitRes k).1 (waitRes k).2)) := by
  induction n with
  | zero =>
    intro i tbl _
    refine ⟨tbl, [], rfl, rfl, fun _ _ => rfl, ?_, rfl⟩
    intro k h1 h2; omega
  | succ n ih =>
    intro i tbl hlen
    have hi : i < tbl.length := by omega
    have hget : tbl[i]? = some tbl[i] := List.getElem?_eq_getElem hi
    by_cases hr : reapedAt waitRes tbl i = true
    · -- the entry is reaped
      have hr' := hr
      simp only [reapedAt, hget, Bool.and_eq_true, bne_iff_ne, ne_eq, decide_eq_true_eq] at hr'
      obtain ⟨tbl', tr, hrun, hl, hout, hin, hpr⟩ :=
        ih (i + 1) (tbl.set i (-1)) (by simp; omega)
      refine ⟨tbl', .waitpid tbl[i] WNOHANG :: bgReport (waitRes i).1 (waitRes i).2 ++ tr,
        ?_, ?_, ?_, ?_, ?_⟩
      · simp only [bgFinishedLoop, hget]
        simp [hr'.1, hr'.2, hrun]
      · simpa using hl
      · intro k hk
        rw [hout k (by omega), List.getElem?_set]
        have : i ≠ k := by omega
        simp [this]
      · intro k hk1 hk2
        by_cases hki : k = i
        · subst hki
          rw [hout k (by omega), hr]
          simp [List.getElem?_set, hi]
        · rw [hin k (by omega) (by omega), reapedAt_set_of_ne _ _ _ _ _ (Ne.symm hki),
            List.getElem?_set]
          simp [Ne.symm hki]
      · show printed (bgReport (waitRes i).1 (waitRes i).2 ++ tr) = _
        rw [printed_append, hpr, List.range'_succ, List.filter_cons_of_pos hr, List.flatMap_cons]
        congr 1
        congr 1
        apply List.filter_congr
        intro k hk
        rw [List.mem_range'_1] at hk
        exact reapedAt_set_of_ne _ _ _ _ _ (by omega)
    · -- the entry is left as it is
      have hr' := hr
      simp only [reapedAt, hget, Bool.and_eq_true, bne_iff_ne, ne_eq, decide_eq_true_eq,
        not_and] at hr'
      obtain ⟨tbl', tr, hrun, hl, hout, hin, hpr⟩ := ih (i + 1) tbl (by omega)
      have hfilter : ((List.range' i (n + 1)).filter (reapedAt waitRes tbl)) =
          ((List.range' (i + 1) n).filter (reapedAt waitRes tbl)) := by
        rw [List.range'_succ, List.filter_cons_of_neg hr]
      by_cases hp : tbl[i] = -1
      · refine ⟨tbl', tr, ?_, hl, ?_, ?_, ?_⟩
        · simp only [bgFinishedLoop, hget]
          simp [hp, hrun]
        · intro k hk; exact hout k (by omega)
        · intro k hk1 hk2
          by_cases hki : k = i
          · subst hki
            rw [hout k (by omega)]; simp [hr]
          · exact hin k (by omega) (by omega)
        · rw [hpr, hfilter]
      · have hw := hr' hp
        refine ⟨tbl', .waitpid tbl[i] WNOHANG :: tr, ?_, hl, ?_, ?_, ?_⟩
        · simp only [bgFinishedLoop, hget]
          simp [hp, hw, hrun]
        · intro k hk; exact hout k (by omega)
        · intro k hk1 hk2
          by_cases hki : k = i
          · subst hki
            rw [hout k (by omega)]; simp [hr]
          · exact hin k (by omega) (by omega)
        · show printed tr = _
          rw [hpr, hfilter]

/-- Claim C6. One call of `bgFinishedProcesses` on a job table that lies inside its
array returns, and (i) every live entry below `bgSize` whose non-blocking wait
returned a process id is set to `-1` and has its report among those printed,
(ii) every other entry is unchanged, as is `bgSize`, (iii) the texts printed
are the reports of the reaped entries in increasing index order, each report
being the line with the process id followed by the exit value or by the
terminating signal (one of the two is printed unless the status is that of a
stopped child, which `waitpid` without `WUNTRACED` does not deliver). -/
theorem bgFinishedProcesses_reaps (waitRes : Nat → Int × Int) (st : Shell)
    (hlen : st.bgPID.length = MAX_BG_PROCESSES) (hsz : st.bgSize ≤ MAX_BG_PROCESSES) :
    ∃ st' tr, bgFinishedProcesses waitRes st = .ok (st', tr) ∧
      (∀ i p, i < st.bgSize → st.bgPID[i]? = some p → p ≠ -1 → 0 < (waitRes i).1 →
        st'.bgPID[i]? = some (-1) ∧
        i ∈ (List.range st.bgSize).filter (reapedAt waitRes st.bgPID)) ∧
      (∀ i p, st.bgPID[i]? = some p → (st.bgSize ≤ i ∨ p = -1 ∨ (waitRes i).1 ≤ 0) →
        st'.bgPID[i]? = some p) ∧
      st'.bgSize = st.bgSize ∧
      st'.bgPID.length = st.bgPID.length ∧
      printed tr = ((List.range st.bgSize).filter (reapedAt waitRes st.bgPID)).flatMap
        (fun i => printed (bgReport (waitRes i).1 (waitRes i).2)) ∧
      (∀ a s, printed (bgReport a s) =
        ("background pid ".toList ++ dec a ++ " is done. ".toList) ::
          (if WIFEXITED s then ["exit value ".toList ++ dec (WEXITSTATUS s) ++ "\n".toList]
           else if WIFSIGNALED s then
            ["terminated by signal ".toList ++ dec (WTERMSIG s) ++ " \n".toList]
           else [])) ∧
      (∀ s, WTERMSIG s ≠ 127 → WIFEXITED s = true ∨ WIFSIGNALED s = true) := by
  obtain ⟨tbl', tr, hrun, hl, hout, hin, hpr⟩ :=
    bgFinishedLoop_spec waitRes st.bgSize 0 st.bgPID (by omega)
  refine ⟨{ st with bgPID := tbl' }, tr, ?_, ?_, ?_, rfl, hl, ?_, ?_, ?_⟩
  · simp [bgFinishedProcesses, hrun]
  · intro i p hi hp hne hw
    have hreap : reapedAt waitRes st.bgPID i = true := by
      simp [reapedAt, hp, hne, hw]
    constructor
    · show tbl'[i]? = some (-1)
      rw [hin i (by omega) (by omega), hreap]; rfl
    · simp [List.mem_filter, hi, hreap]
  · intro i p hp hcase
    show tbl'[i]? = some p
    by_cases hi : i < st.bgSize
    · have hreap : reapedAt waitRes st.bgPID i = false := by
        rcases hcase with h | h | h
        · omega
        · simp [reapedAt, hp, h]
        · simp [reapedAt, hp]; intro _; omega
      rw [hin i (by omega) (by omega), hreap, hp]; rfl
    · rw [hout i (Or.inr (by omega)), hp]
  · rw [hpr, List.range_eq_range']
  · intro a s
    unfold bgReport
    by_cases h1 : WIFEXITED s = true
    · simp [h1, printed]
    · by_cases h2 : WIFSIGNALED s = true
      · simp [h1, h2, printed]
      · simp [h1, h2, printed]
  · intro s hs
    have h0 : 0 ≤ s % 128 := Int.emod_nonneg s (by decide)
    have h1 : s % 128 < 128 := Int.emod_lt_of_pos s (by decide)
    simp only [WTERMSIG] at hs
    by_cases hz : s % 128 = 0
    · left; simp [WIFEXITED, WTERMSIG, hz]
    · right
      simp only [WIFSIGNALED, decide_eq_true_eq]
      omega

/-- Witness of `bgFinishedProcesses_reaps`: three jobs, the second one found terminated with
exit value 3. -/
theorem bgFinishedProcesses_reaps_witness :
    sampleTable.bgPID.length = MAX_BG_PROCESSES ∧ sampleTable.bgSize ≤ MAX_BG_PROCESSES ∧
    ∃ st' tr, bgFinishedProcesses sampleWaits sampleTable = .ok (st', tr) ∧
      st'.bgPID.take 3 = [101, -1, 103] ∧
      printed tr = ["background pid 102 is done. ".toList, "exit value 3\n".toList] := by
  refine ⟨by decide, by decide, ?_⟩
  obtain ⟨st', tr, hrun, -, -, -, -, -, -, -⟩ :=
    bgFinishedProcesses_reaps sampleWaits sampleTable (by decide) (by decide)
  have h : bgFinishedProcesses sampleWaits sampleTable =
      .ok ({ sampleTable with bgPID := 101 :: -1 :: 103 :: List.replicate 97 0 },
        [.waitpid 101 WNOHANG, .waitpid 102 WNOHANG] ++ bgReport 102 768 ++
          [.waitpid 103 WNOHANG]) := rfl
  rw [h] at hrun
  injection hrun with hrun
  injection hrun with h1 h2
  subst h1 h2
  exact ⟨_, _, h, rfl, by decide⟩

/-! ## Background activity -/

theorem bgFinishedProcesses_frame (waitRes : Nat → Int × Int) (st : Shell)
    (hlen : st.bgPID.length = MAX_BG_PROCESSES) (hsz : st.bgSize ≤ MAX_BG_PROCESSES) :
    ∃ tbl' tr, bgFinishedProcesses waitRes st = .ok ({ st with bgPID := tbl' }, tr) ∧
      tbl'.length = st.bgPID.length := by
  obtain ⟨tbl', tr, hrun, hl, -, -, -⟩ :=
    bgFinishedLoop_spec waitRes st.bgSize 0 st.bgPID (by omega)
  exact ⟨tbl', tr, by simp [bgFinishedProcesses, hrun], hl⟩

theorem bgStep_prompt (e : BgEvent) (st st' : Shell)
    (hlen : st.bgPID.length = MAX_BG_PROCESSES) (hsz : st.bgSize ≤ MAX_BG_PROCESSES)
    (h : bgStep st e = .prompt st') :
    st'.bgPID.length = MAX_BG_PROCESSES ∧ st'.bgSize ≤ MAX_BG_PROCESSES ∧
    st'.childExitStatus = st.childExitStatus ∧ st'.backgroundON = st.backgroundON ∧
    st'.bgSize = st.bgSize + dispatches [e] := by
  cases e with
  | dispatch env pid =>
    simp only [bgStep, otherCommandsParent] at h
    by_cases hlt : st.bgSize < st.bgPID.length
    · simp [hlt] at h
      subst h
      simp [dispatches, hlen]
      omega
    · simp [hlt] at h
  | poll waitRes =>
    obtain ⟨tbl', tr, hrun, hl⟩ := bgFinishedProcesses_frame waitRes st hlen hsz
    simp only [bgStep, hrun] at h
    injection h with h
    subst h
    simp [dispatches, hl, hlen, hsz]

theorem bgStep_returns (e : BgEvent) (st : Shell)
    (hlen : st.bgPID.length = MAX_BG_PROCESSES)
    (hcap : st.bgSize + dispatches [e] ≤ MAX_BG_PROCESSES) :
    ∃ st', bgStep st e = .prompt st' := by
  cases e with
  | dispatch env pid =>
    have hlt : st.bgSize < st.bgPID.length := by
      simp [dispatches] at hcap; omega
    refine ⟨⟨st.backgroundON, true, st.bgPID.set st.bgSize pid, st.bgSize + 1,
      st.childExitStatus⟩, ?_⟩
    simp [bgStep, otherCommandsParent, hlt]
  | poll waitRes =>
    obtain ⟨tbl', tr, hrun, -⟩ :=
      bgFinishedProcesses_frame waitRes st hlen (by simp [dispatches] at hcap; omega)
    exact ⟨{ st with bgPID := tbl' }, by simp [bgStep, hrun]⟩

theorem dispatches_cons (e : BgEvent) (es : List BgEvent) :
    dispatches (e :: es) = dispatches [e] + dispatches es := by
  cases e <;> simp [dispatches]; omega

theorem runBg_prompt (evs : List BgEvent) :
    ∀ (st st' : Shell), st.bgPID.length = MAX_BG_PROCESSES → st.bgSize ≤ MAX_BG_PROCESSES →
      runBg evs st = .prompt st' →
      st'.bgPID.length = MAX_BG_PROCESSES ∧ st'.bgSize ≤ MAX_BG_PROCESSES ∧
      st'.childExitStatus = st.childExitStatus ∧ st'.backgroundON = st.backgroundON ∧
      st'.bgSize = st.bgSize + dispatches evs := by
  induction evs with
  | nil =>
    intro st st' hlen hsz h
    simp only [runBg] at h
    injection h with h
    subst h
    simp [dispatches, hlen, hsz]
  | cons e es ih =>
    intro st st' hlen hsz h
    simp only [runBg] at h
    cases hstep : bgStep st e with
    | prompt st1 =>
      rw [hstep] at h
      obtain ⟨a1, a2, a3, a4, a5⟩ := bgStep_prompt e st st1 hlen hsz hstep
      obtain ⟨b1, b2, b3, b4, b5⟩ := ih st1 st' a1 a2 h
      refine ⟨b1, b2, by rw [b3, a3], by rw [b4, a4], ?_⟩
      rw [b5, a5, dispatches_cons e es]; omega
    | exited c => rw [hstep] at h; simp at h
    | child r => rw [hstep] at h; simp at h
    | fault f => rw [hstep] at h; simp at h

theorem runBg_returns (evs : List BgEvent) :
    ∀ (st : Shell), st.bgPID.length = MAX_BG_PROCESSES →
      st.bgSize + dispatches evs ≤ MAX_BG_PROCESSES → ∃ st', runBg evs st = .prompt st' := by
  induction evs with
  | nil => intro st _ _; exact ⟨st, rfl⟩
  | cons e es ih =>
    intro st hlen hcap
    rw [dispatches_cons] at hcap
    obtain ⟨st1, hstep⟩ := bgStep_returns e st hlen (by omega)
    obtain ⟨a1, a2, -, -, a5⟩ := bgStep_prompt e st st1 hlen (by omega) hstep
    obtain ⟨st', hrun⟩ := ih st1 a1 (by omega)
    exact ⟨st', by simp [runBg, hstep, hrun]⟩

theorem bgStep_childExitStatus (e : BgEvent) (st st' : Shell)
    (h : bgStep st e = .prompt st') : st'.childExitStatus = st.childExitStatus := by
  cases e with
  | dispatch env pid =>
    simp only [bgStep, otherCommandsParent] at h
    rw [if_neg (by simp)] at h
    split at h
    · injection h with h
      subst h
      rfl
    · cases h
  | poll waitRes =>
    simp only [bgStep, bgFinishedProcesses] at h
    cases hloop : bgFinishedLoop waitRes st.bgSize 0 st.bgPID with
    | error f => rw [hloop] at h; cases h
    | ok r =>
      rw [hloop] at h
      injection h with h
      subst h
      rfl

theorem runBg_childExitStatus (evs : List BgEvent) :
    ∀ (st st' : Shell), runBg evs st = .prompt st' →
      st'.childExitStatus = st.childExitStatus := by
  induction evs with
  | nil =>
    intro st st' h
    simp only [runBg] at h
    injection h with h
    subst h
    rfl
  | cons e es ih =>
    intro st st' h
    simp only [runBg] at h
    cases hstep : bgStep st e with
    | prompt st1 =>
      rw [hstep] at h
      rw [ih st1 st' h, bgStep_childExitStatus e st st1 hstep]
    | exited c => rw [hstep] at h; simp at h
    | child r => rw [hstep] at h; simp at h
    | fault f => rw [hstep] at h; simp at h

/-- Claim C8. From every state, whenever a sequence of background dispatches (parent
branch of `otherCommands` with `bgProcess` true) and of calls of
`bgFinishedProcesses`, whatever the waits answer, has run, `childExitStatus` is
what it was and `statusCommand` prints the same as before; and such a sequence
does run to its end whenever the job table has room for its dispatches. -/
theorem background_keeps_childExitStatus (evs : List BgEvent) (st : Shell) :
    (∀ st', runBg evs st = .prompt st' →
      st'.childExitStatus = st.childExitStatus ∧ statusCommand st' = statusCommand st) ∧
    (st.bgPID.length = MAX_BG_PROCESSES → st.bgSize + dispatches evs ≤ MAX_BG_PROCESSES →
      ∃ st', runBg evs st = .prompt st') := by
  constructor
  · intro st' h
    have h3 := runBg_childExitStatus evs st st' h
    exact ⟨h3, by simp [statusCommand, h3]⟩
  · intro hlen hcap
    exact runBg_returns evs st hlen hcap

/-- Witness of `background_keeps_childExitStatus`: the status 256 (exit value 1) left by a
foreground command survives two launches and a poll that reaps a job. -/
theorem background_keeps_childExitStatus_witness :
    runBg [.dispatch sampleEnv 104, .poll sampleWaits, .dispatch sampleEnv 105]
        { sampleTable with childExitStatus := 256 } =
      .prompt { sampleTable with
        childExitStatus := 256, bgProcess := true, bgSize := 5,
        bgPID := 101 :: -1 :: 103 :: 104 :: 105 :: List.replicate 95 0 } ∧
    statusCommand { sampleTable with childExitStatus := 256 } =
      [.fflush, .printf "exit value 1\n".toList, .fflush] ∧
    statusCommand { sampleTable with
        childExitStatus := 256, bgProcess := true, bgSize := 5,
        bgPID := 101 :: -1 :: 103 :: 104 :: 105 :: List.replicate 95 0 } =
      statusCommand { sampleTable with childExitStatus := 256 } :=
  ⟨by decide, by decide,
    ((background_keeps_childExitStatus
      [.dispatch sampleEnv 104, .poll sampleWaits, .dispatch sampleEnv 105]
      { sampleTable with childExitStatus := 256 }).1 _ (by decide)).2⟩

/-- Claim C10. After any sequence of background dispatches and polls that started
from the initial globals, `bgSize` is the number of dispatches made so far; the
next dispatch writes its process id at that index of `bgPID`; and once
`MAX_BG_PROCESSES` dispatches have been made the next one uses index 100, which
is outside the 100-cell table, whatever the table holds (also when every
earlier job has been reaped). -/
theorem bgSize_counts_dispatches (evs : List BgEvent) (st : Shell)
    (h : runBg evs Shell.initial = .prompt st) :
    st.bgSize = dispatches evs ∧
    st.bgPID.length = 100 ∧
    (∀ env pid st2, bgStep st (.dispatch env pid) = .prompt st2 →
      st2.bgPID = st.bgPID.set (dispatches evs) pid ∧ st2.bgSize = dispatches evs + 1) ∧
    (dispatches evs = MAX_BG_PROCESSES →
      ∀ env pid, bgStep st (.dispatch env pid) = .fault (.bgPIDOutOfBounds 100)) := by
  obtain ⟨h1, h2, -, -, h5⟩ := runBg_prompt evs Shell.initial st (by decide) (by decide) h
  have hsz : st.bgSize = dispatches evs := by
    rw [h5]; simp [Shell.initial]
  refine ⟨hsz, h1, ?_, ?_⟩
  · intro env pid st2 hstep
    simp only [bgStep, otherCommandsParent] at hstep
    by_cases hlt : st.bgSize < st.bgPID.length
    · simp [hlt] at hstep
      subst hstep
      simp [hsz]
    · simp [hlt] at hstep
  · intro hfull env pid
    have hge : ¬ st.bgSize < st.bgPID.length := by
      rw [h1, hsz, hfull]; simp
    have h100 : st.bgSize = 100 := by rw [hsz, hfull]; rfl
    simp only [bgStep, otherCommandsParent]
    rw [if_neg (by simp), if_neg hge, h100]

theorem fullRun_prompt : runBg fullRun Shell.initial = .prompt fullState := by
  set_option maxRecDepth 100000 in decide!

/-- Witness of `bgSize_counts_dispatches`: one hundred jobs launched and all of them
reaped; no job is outstanding, every slot holds `-1`, and the next launch is
directed at index 100. -/
theorem bgSize_counts_dispatches_witness :
    runBg fullRun Shell.initial = .prompt fullState ∧
    fullState.bgPID = List.replicate 100 (-1) ∧
    fullState.bgSize = 100 ∧
    bgStep fullState (.dispatch sampleEnv 701) = .fault (.bgPIDOutOfBounds 100) :=
  ⟨fullRun_prompt, rfl, rfl,
    (bgSize_counts_dispatches fullRun fullState fullRun_prompt).2.2.2 (by decide) sampleEnv 701⟩

/-! ## The classifier -/

theorem toDigitsCore_not_redirect (fuel : Nat) :
    ∀ (n : Nat) (ds : List Char), (∀ c ∈ ds, c ≠ '>' ∧ c ≠ '<') →
      ∀ c ∈ Nat.toDigitsCore 10 fuel n ds, c ≠ '>' ∧ c ≠ '<' := by
  induction fuel with
  | zero => intro n ds h c hc; exact h c (by simpa [Nat.toDigitsCore] using hc)
  | succ f ih =>
    intro n ds h c hc
    have hd : ∀ d, d < 10 → Nat.digitChar d ≠ '>' ∧ Nat.digitChar d ≠ '<' := by decide
    have hds : ∀ c ∈ Nat.digitChar (n % 10) :: ds, c ≠ '>' ∧ c ≠ '<' := by
      intro c hc
      rcases List.mem_cons.mp hc with h1 | h1
      · rw [h1]; exact hd _ (Nat.mod_lt _ (by decide))
      · exact h c h1
    simp only [Nat.toDigitsCore] at hc
    split at hc
    · exact hds c hc
    · exact ih _ _ hds c hc

theorem dec_not_redirect (i : Int) : ∀ c ∈ dec i, c ≠ '>' ∧ c ≠ '<' := by
  have hrepr : ∀ n : Nat, ∀ c ∈ (Nat.repr n).toList, c ≠ '>' ∧ c ≠ '<' := by
    intro n c hc
    exact toDigitsCore_not_redirect _ n [] (by simp) c
      (by simpa [Nat.repr, Nat.toDigits, List.asString] using hc)
  cases i with
  | ofNat n => exact hrepr n
  | negSucc n =>
    intro c hc
    rcases List.mem_cons.mp hc with h1 | h1
    · rw [h1]; decide
    · exact hrepr _ c h1

theorem piddyOf_not_redirect (pid : Int) : isRedirect (piddyOf pid) = false := by
  have h : ∀ c ∈ piddyOf pid, c ≠ '>' ∧ c ≠ '<' :=
    fun c hc => dec_not_redirect pid c (List.mem_of_mem_take hc)
  cases hp : piddyOf pid with
  | nil => rfl
  | cons c cs =>
    have := h c (by rw [hp]; exact List.mem_cons_self _ _)
    simp [isRedirect, this.1, this.2]

theorem read_store (m : Mem) (p q : Ptr) (v : CStr) :
    (m.store p v).read q = m.read q ∨ (m.store p v).read q = v := by
  cases p with
  | tokeee => cases q <;> simp [Mem.store, Mem.read]
  | line i =>
    cases q with
    | tokeee => simp [Mem.store, Mem.read]
    | line j =>
      simp only [Mem.store, Mem.read, List.getD_eq_getElem?_getD, List.getElem?_set]
      by_cases hij : i = j
      · subst hij
        by_cases hi : i < m.line.length
        · right; simp [hi]
        · left
          have : m.line[i]? = none := List.getElem?_eq_none (by omega)
          simp [hi, this]
      · left; simp [hij]

theorem scanLoop_after_redirect (piddy : CStr) :
    ∀ (ps : List Ptr) (s : Scan), s.tempy ≠ 0 →
      (scanLoop piddy ps s).arrayA = s.arrayA ∧ (scanLoop piddy ps s).mem = s.mem := by
  intro ps
  induction ps with
  | nil => intro s _; exact ⟨rfl, rfl⟩
  | cons p ps ih =>
    intro s hs
    simp only [scanLoop]
    split
    · exact ih _ (by simp)
    · split
      · exact ih _ (by simp)
      · rw [if_neg (by simpa using hs)]
        exact ih s hs

theorem scanLoop_spec (piddy : CStr) (hpid : isRedirect piddy = false) :
    ∀ (ps : List Ptr) (s : Scan), (∀ q ∈ s.arrayA, isRedirect (s.mem.read q) = false) →
      (∃ j, (scanLoop piddy ps s).arrayA = s.arrayA ++ ps.take j) ∧
      (∀ q ∈ (scanLoop piddy ps s).arrayA,
        isRedirect ((scanLoop piddy ps s).mem.read q) = false) := by
  intro ps
  induction ps with
  | nil => intro s hs; exact ⟨⟨0, by simp [scanLoop]⟩, hs⟩
  | cons p ps ih =>
    intro s hs
    have hstop : ∀ s' : Scan, s'.tempy ≠ 0 → s'.arrayA = s.arrayA → s'.mem = s.mem →
        (∃ j, (scanLoop piddy ps s').arrayA = s.arrayA ++ (p :: ps).take j) ∧
        (∀ q ∈ (scanLoop piddy ps s').arrayA,
          isRedirect ((scanLoop piddy ps s').mem.read q) = false) := by
      intro s' ht ha hm
      obtain ⟨e1, e2⟩ := scanLoop_after_redirect piddy ps s' ht
      rw [e1, e2, ha, hm]
      exact ⟨⟨0, by simp⟩, hs⟩
    simp only [scanLoop]
    by_cases h1 : (s.mem.read p).head? = some '>'
    · simp only [h1, beq_self_eq_true, if_true]
      exact hstop _ (by simp) rfl rfl
    · by_cases h2 : (s.mem.read p).head? = some '<'
      · have h1' : ((s.mem.read p).head? == some '>') = false := by simpa using h1
        simp only [h1', h2, beq_self_eq_true, if_true, Bool.false_eq_true, if_false]
        exact hstop _ (by simp) rfl rfl
      · have h1' : ((s.mem.read p).head? == some '>') = false := by simpa using h1
        have h2' : ((s.mem.read p).head? == some '<') = false := by simpa using h2
        have hp : isRedirect (s.mem.read p) = false := by simp [isRedirect, h1', h2']
        simp only [h1', h2', Bool.false_eq_true, if_false]
        by_cases ht : s.tempy = 0
        · rw [if_pos (by simpa using ht)]
          split
          · -- the token reads `$$`: `piddy` is copied over it
            have hs' : ∀ q ∈ s.arrayA ++ [p],
                isRedirect (((s.mem.store p piddy).store p piddy).read q) = false := by
              intro q hq
              have hq0 : isRedirect (s.mem.read q) = false := by
                rcases List.mem_append.mp hq with h | h
                · exact hs q h
                · rw [List.mem_singleton.mp h]; exact hp
              rcases read_store (s.mem.store p piddy) p q piddy with e | e
              · rw [e]
                rcases read_store s.mem p q piddy with e' | e'
                · rw [e']; exact hq0
                · rw [e']; exact hpid
              · rw [e]; exact hpid
            obtain ⟨⟨j, hj⟩, h⟩ := ih
              { s with arrayA := s.arrayA ++ [p], mem := (s.mem.store p piddy).store p piddy } hs'
            exact ⟨⟨j + 1, by simpa using hj⟩, h⟩
          · have hs' : ∀ q ∈ s.arrayA ++ [p], isRedirect (s.mem.read q) = false := by
              intro q hq
              rcases List.mem_append.mp hq with h | h
              · exact hs q h
              · rw [List.mem_singleton.mp h]; exact hp
            obtain ⟨⟨j, hj⟩, h⟩ := ih { s with arrayA := s.arrayA ++ [p] } hs'
            exact ⟨⟨j + 1, by simpa using hj⟩, h⟩
        · have ht' : (s.tempy == 0) = false := by simpa using ht
          simp only [ht', Bool.false_eq_true, if_false]
          exact hstop s ht rfl rfl

theorem scanLoop_mem (piddy : CStr) :
    ∀ (ps : List Ptr) (s : Scan), (∀ q ∈ ps, s.mem.read q ≠ "$$".toList) →
      (scanLoop piddy ps s).mem = s.mem := by
  intro ps
  induction ps with
  | nil => intro s _; rfl
  | cons p ps ih =>
    intro s hs
    have hp : (s.mem.read p == "$$".toList) = false := by
      simpa using hs p (List.mem_cons_self _ _)
    have hrest : ∀ q ∈ ps, s.mem.read q ≠ "$$".toList :=
      fun q hq => hs q (List.mem_cons_of_mem _ hq)
    simp only [scanLoop, hp, Bool.false_eq_true, if_false]
    split
    · exact ih _ hrest
    · split
      · exact ih _ hrest
      · split
        · exact ih _ hrest
        · exact ih _ hrest

theorem markBackground_ok (backgroundON bgProcess : Bool) (m : Mem) (tokenArray : List Ptr)
    (hne : tokenArray ≠ []) :
    markBackground backgroundON bgProcess m tokenArray =
      .ok (if (tokenArray.getLast?.map m.read) = some "&".toList then
          (tokenArray.dropLast, backgroundON)
        else (tokenArray, bgProcess)) := by
  unfold markBackground
  cases hl : tokenArray.getLast? with
  | none => exact absurd (List.getLast?_eq_none_iff.mp hl) hne
  | some p =>
    simp only [Option.map_some']
    by_cases h : m.read p = "&".toList
    · have h1 : (m.read p == "&".toList) = true := by rw [h]; decide
      have h2 : some (m.read p) = some "&".toList := by rw [h]
      simp only [h1, h2, if_true]
      cases backgroundON <;> rfl
    · have h1 : (m.read p == "&".toList) = false := by simpa using h
      have h2 : ¬ some (m.read p) = some "&".toList := by simpa using h
      simp only [h1, h2, if_false, Bool.false_eq_true]

theorem take_length_take {α : Type} (l : List α) (j : Nat) :
    l.take j = l.take (l.take j).length := by
  rw [List.length_take]
  rcases Nat.le_total j l.length with h | h
  · rw [Nat.min_eq_left h]
  · rw [Nat.min_eq_right h, List.take_of_length_le h, List.take_length]

/-- The entries the loop of lines 568-591 writes into `arrayA`, for every non-empty
token sequence: they are the first entries of `tokenArray` (after a trailing `&`
has been dropped), up to the first token that begins with `<` or `>`. This is
about the positions written, not about the NULL-terminated vector `execvp`
reads (`arrayAVector`), and entries at different positions can be the same
pointer. -/
theorem arrayA_written_entries (pid : Int) (backgroundON bgProcess : Bool) (t : Tokens)
    (hne : t.tokenArray ≠ []) :
    ∃ p, classify (piddyOf pid) backgroundON bgProcess t = .ok p ∧
      p.tokenArray = (if (t.tokenArray.getLast?.map t.mem.read) = some "&".toList then
          t.tokenArray.dropLast else t.tokenArray) ∧
      p.scan.arrayA = p.tokenArray.take p.scan.arrayA.length ∧
      p.scan.arrayA.length ≤ p.tokenArray.length ∧
      (∀ q ∈ p.scan.arrayA, isRedirect (p.scan.mem.read q) = false) ∧
      (∀ k q, p.tokenArray[k]? = some q → isRedirect (p.scan.mem.read q) = true →
        p.scan.arrayA.length ≤ k) ∧
      ((∀ q ∈ t.tokenArray, t.mem.read q ≠ "$$".toList) → p.scan.mem = t.mem) := by
  have hmark := markBackground_ok backgroundON bgProcess t.mem t.tokenArray hne
  obtain ⟨toks, bg, hpair, htoks⟩ : ∃ toks bg,
      markBackground backgroundON bgProcess t.mem t.tokenArray = .ok (toks, bg) ∧
      toks = (if (t.tokenArray.getLast?.map t.mem.read) = some "&".toList then
          t.tokenArray.dropLast else t.tokenArray) := by
    rw [hmark]
    split
    · exact ⟨_, _, rfl, rfl⟩
    · exact ⟨_, _, rfl, rfl⟩
  obtain ⟨⟨j, hj⟩, hnon⟩ := scanLoop_spec (piddyOf pid) (piddyOf_not_redirect pid) toks
    { mem := t.mem, tempy := 0, redirA := [], arrayA := [] } (by simp)
  have hmem := scanLoop_mem (piddyOf pid) toks
    { mem := t.mem, tempy := 0, redirA := [], arrayA := [] }
  have hcl : classify (piddyOf pid) backgroundON bgProcess t =
      .ok ⟨toks, bg, scanLoop (piddyOf pid) toks
        { mem := t.mem, tempy := 0, redirA := [], arrayA := [] }⟩ := by
    simp [classify, hpair]
  generalize scanLoop (piddyOf pid) toks
    { mem := t.mem, tempy := 0, redirA := [], arrayA := [] } = sc at hj hnon hmem hcl
  simp only [List.nil_append] at hj
  have hlen : sc.arrayA.length ≤ toks.length := by
    rw [hj, List.length_take]; omega
  have htake : sc.arrayA = toks.take sc.arrayA.length := by
    rw [hj]; exact take_length_take toks j
  refine ⟨⟨toks, bg, sc⟩, hcl, htoks, htake, hlen, hnon, ?_, ?_⟩
  · intro k q hk hq
    by_contra hlt
    have hk' : k < sc.arrayA.length := Nat.lt_of_not_le hlt
    have hin : q ∈ sc.arrayA := by
      rw [htake]
      apply List.mem_iff_getElem?.mpr
      exact ⟨k, by rw [List.getElem?_take]; simp [hk', hk]⟩
    have := hnon q hin
    simp [this] at hq
  · intro hno
    apply hmem
    intro q hq
    apply hno
    rw [htoks] at hq
    split at hq
    · exact List.mem_of_mem_dropLast hq
    · exact hq

/-- Claim C5, evaluated. With process id 1234 the line `echo a$$ > b$$` is parsed
into the tokens `echo`, `a1234b1234`, `>`, `a1234b1234`, the second and the
fourth being the one pointer `tokeee`; `arrayA` is `echo` and that pointer, so
the token that follows `>` is an entry of `arrayA`. And for sixty-four words
followed by `> f` the vector `execvp(arrayA[0], arrayA)` reads does not end
after the sixty-four words: it runs on through the entries line 548 did not
clear. -/
theorem arrayA_contents_evaluated :
    parseLine 1234 true false "echo a$$ > b$$\n".toList =
      .ok { tokenArray := [.line 0, .tokeee, .line 2, .tokeee], bgProcess := false,
            scan := { mem := { line := ["echo".toList, "a".toList, ">".toList, "b".toList],
                               tokeee := "a1234b1234".toList },
                      tempy := 1, redirA := [.line 2], arrayA := [.line 0, .tokeee] } } ∧
    tokenStrings 1234 "echo a$$ > b$$\n".toList =
      .ok ["echo".toList, "a1234b1234".toList, ">".toList, "a1234b1234".toList] ∧
    tokenStrings 1234 longLine = .ok (List.replicate 64 "a".toList ++ [">".toList, "f".toList]) ∧
    (commandLine 1234 staleEnv Shell.initial longLine).2 =
      .child (.execvp (List.replicate 64 "a".toList ++
        ["w64".toList, "w65".toList, "w66".toList, "w67".toList, "w68".toList,
          "w69".toList])) := by
  refine ⟨rfl, rfl, ?_, ?_⟩
  · set_option maxRecDepth 100000 in rfl
  · set_option maxRecDepth 100000 in decide!

/-! ## Foreground-only mode -/

theorem ranInForeground_fflush (st : Shell) (r : List Action × Outcome)
    (h : ranInForeground st r) : ranInForeground st (.fflush :: r.1, r.2) := by
  obtain ⟨h1, h2⟩ := h
  refine ⟨?_, h2⟩
  intro pid hmem
  rcases List.mem_cons.mp hmem with e | e
  · simp [bgPidMsg] at e
  · exact h1 pid e

theorem cdCommand_foreground (env : Env) (st : Shell) (m : Mem) (myArray : List Ptr) :
    ranInForeground st (cdCommand env st m myArray) := by
  unfold cdCommand ranInForeground
  dsimp only
  repeat' split
  all_goals simp [bgPidMsg]

theorem exitCommand_foreground (env : Env) (st : Shell) :
    ranInForeground st (exitCommand env st) := by
  unfold exitCommand ranInForeground
  repeat' split
  all_goals simp [bgPidMsg]

theorem statusCommand_foreground (st : Shell) :
    ranInForeground st (statusCommand st, .prompt st) := by
  unfold statusCommand ranInForeground
  repeat' split
  all_goals simp [bgPidMsg]

theorem redirectCommand_foreground (env : Env) (st : Shell) (m : Mem)
    (redirA tokenArray arrayA : List Ptr) :
    ranInForeground st (redirectCommand env st m redirA tokenArray arrayA) := by
  unfold redirectCommand ranInForeground
  dsimp only
  repeat' split
  all_goals simp [bgPidMsg]

theorem multRedirectionCommand_foreground (env : Env) (st : Shell) (m : Mem)
    (tokenArray : List Ptr) :
    ranInForeground st (multRedirectionCommand env st m tokenArray) := by
  unfold multRedirectionCommand ranInForeground
  dsimp only
  repeat' split
  all_goals simp [bgPidMsg]

theorem otherCommands_foreground (env : Env) (st : Shell) (m : Mem) (tokenArray : List Ptr)
    (hfg : st.bgProcess = false) :
    ranInForeground st (otherCommands env st m tokenArray) := by
  unfold otherCommands otherCommandsParent ranInForeground
  dsimp only
  rw [hfg]
  simp only [beq_self_eq_true, if_true]
  repeat' split
  all_goals simp [bgPidMsg, hfg]

theorem otherCommands_waits_for_child (env : Env) (st : Shell) (m : Mem)
    (tokenArray : List Ptr) (hfg : st.bgProcess = false) :
    forkThenWait (otherCommands env st m tokenArray).1 = true := by
  unfold otherCommands otherCommandsParent
  dsimp only
  rw [hfg]
  simp only [beq_self_eq_true, if_true]
  repeat' split
  all_goals simp [forkThenWait, waitsFor]
  · omega
  · rename_i h; simpa using le_of_eq (by simpa using h)

theorem dispatch_foreground (env : Env) (st : Shell) (p : Parsed) (hfg : st.bgProcess = false) :
    ranInForeground st (dispatch env st p) := by
  unfold dispatch
  split
  · exact ⟨by simp [bgPidMsg], by simp⟩
  · split
    · exact ranInForeground_fflush st _ (cdCommand_foreground env st _ _)
    · split
      · exact ⟨by simp [bgPidMsg], by simp⟩
      · split
        · exact ranInForeground_fflush st _ (exitCommand_foreground env st)
        · split
          · exact ranInForeground_fflush st _ (statusCommand_foreground st)
          · split
            · exact ranInForeground_fflush st _ (redirectCommand_foreground env st _ _ _ _)
            · split
              · exact ranInForeground_fflush st _ (multRedirectionCommand_foreground env st _ _)
              · exact ranInForeground_fflush st _ (otherCommands_foreground env st _ _ hfg)

/-- The part of the gating that holds for every token sequence whose last token is
exactly `&`, classified and dispatched while `backgroundON` is false: the
classifier returns with the `&` dropped and `bgProcess` false, the command
prints no `background pid is` message, and whenever it comes back to the
prompt the job table and `bgSize` are unchanged and `bgProcess` is false. -/
theorem ampersand_ignored_in_foreground_only_mode (pid : Int) (env : Env) (st : Shell)
    (t : Tokens)
    (hamp : t.tokenArray.getLast?.map t.mem.read = some "&".toList)
    (hmode : st.backgroundON = false) :
    ∃ p, classify (piddyOf pid) st.backgroundON st.bgProcess t = .ok p ∧
      p.tokenArray = t.tokenArray.dropLast ∧
      p.bgProcess = false ∧
      runTokens pid env st t = dispatch env { st with bgProcess := false } p ∧
      (∀ pid', bgPidMsg pid' ∉ (runTokens pid env st t).1) ∧
      ∀ st', (runTokens pid env st t).2 = .prompt st' →
        st'.bgPID = st.bgPID ∧ st'.bgSize = st.bgSize ∧ st'.bgProcess = false := by
  have hne : t.tokenArray ≠ [] := by
    intro h; rw [h] at hamp; simp at hamp
  have hmark := markBackground_ok st.backgroundON st.bgProcess t.mem t.tokenArray hne
  rw [if_pos hamp, hmode] at hmark
  have hcl : classify (piddyOf pid) st.backgroundON st.bgProcess t =
      .ok ⟨t.tokenArray.dropLast, false, scanLoop (piddyOf pid) t.tokenArray.dropLast
        { mem := t.mem, tempy := 0, redirA := [], arrayA := [] }⟩ := by
    simp [classify, hmode, hmark]
  have hrun : runTokens pid env st t = dispatch env { st with bgProcess := false }
      ⟨t.tokenArray.dropLast, false, scanLoop (piddyOf pid) t.tokenArray.dropLast
        { mem := t.mem, tempy := 0, redirA := [], arrayA := [] }⟩ := by
    simp [runTokens, hcl]
  obtain ⟨h1, h2⟩ := dispatch_foreground env { st with bgProcess := false }
    ⟨t.tokenArray.dropLast, false, scanLoop (piddyOf pid) t.tokenArray.dropLast
      { mem := t.mem, tempy := 0, redirA := [], arrayA := [] }⟩ rfl
  refine ⟨_, hcl, rfl, rfl, hrun, ?_, ?_⟩
  · rw [hrun]; exact h1
  · rw [hrun]; exact h2

/-- Claim C3, evaluated. Foreground-only mode is active and job 19991, launched
before, is in the table. The line `sleep 100 > out &` is dispatched, `fork`
returns 19992, and the `wait(&childExitStatus)` of `redirectCommand` reaps
19991: the shell is back at the prompt without having waited for its child
19992. The same command without the redirection goes through `otherCommands`,
whose `waitpid` is on 19992. -/
theorem foreground_wait_with_redirection_evaluated :
    oneJobFgOnly.backgroundON = false ∧
    tokenStrings 1234 "sleep 100 > out &\n".toList =
      .ok ["sleep".toList, "100".toList, ">".toList, "out".toList, "&".toList] ∧
    commandLine 1234 otherChildEnv oneJobFgOnly "sleep 100 > out &\n".toList =
      ([.fflush, .openFile "out".toList [.O_CREAT, .O_TRUNC, .O_WRONLY] 0o664, .fork 19992,
        .fflush, .sleep 1, .wait 19991],
       .prompt oneJobFgOnly) ∧
    forkThenWait
      (commandLine 1234 otherChildEnv oneJobFgOnly "sleep 100 > out &\n".toList).1 = false ∧
    commandLine 1234 otherChildEnv oneJobFgOnly "sleep 100 &\n".toList =
      ([.fflush, .fork 19992, .fflush, .waitpid 19992 0, .sigUnblock, .fflush],
       .prompt oneJobFgOnly) ∧
    forkThenWait
      (commandLine 1234 otherChildEnv oneJobFgOnly "sleep 100 &\n".toList).1 = true := by
  refine ⟨rfl, rfl, ?_, ?_, ?_, ?_⟩ <;> decide

/-! ## Redirection -/

theorem scanLoop_redirA (piddy : CStr) :
    ∀ (ps : List Ptr) (s : Scan), s.redirA.length = s.tempy →
      (∀ q ∈ s.redirA, isRedirect (s.mem.read q) = true) →
      (scanLoop piddy ps s).redirA.length = (scanLoop piddy ps s).tempy ∧
      (∀ q ∈ (scanLoop piddy ps s).redirA,
        isRedirect ((scanLoop piddy ps s).mem.read q) = true) ∧
      (∀ q ∈ (scanLoop piddy ps s).redirA, q ∈ s.redirA ∨ q ∈ ps) := by
  intro ps
  induction ps with
  | nil => intro s h1 h2; exact ⟨h1, h2, fun q hq => Or.inl hq⟩
  | cons p ps ih =>
    intro s h1 h2
    have hop : ∀ s' : Scan, s'.mem = s.mem → s'.tempy = s.tempy + 1 →
        s'.redirA = s.redirA ++ [p] → isRedirect (s.mem.read p) = true →
        (scanLoop piddy ps s').redirA.length = (scanLoop piddy ps s').tempy ∧
        (∀ q ∈ (scanLoop piddy ps s').redirA,
          isRedirect ((scanLoop piddy ps s').mem.read q) = true) ∧
        (∀ q ∈ (scanLoop piddy ps s').redirA, q ∈ s.redirA ∨ q ∈ p :: ps) := by
      intro s' hm ht hr hp
      obtain ⟨a, b, c⟩ := ih s' (by rw [hr, ht, List.length_append, h1]; rfl) (by
        intro q hq
        rw [hr] at hq
        rw [hm]
        rcases List.mem_append.mp hq with h | h
        · exact h2 q h
        · rw [List.mem_singleton.mp h]; exact hp)
      refine ⟨a, b, ?_⟩
      intro q hq
      rcases c q hq with h | h
      · rw [hr] at h
        rcases List.mem_append.mp h with h' | h'
        · exact Or.inl h'
        · exact Or.inr (by rw [List.mem_singleton.mp h']; exact List.mem_cons_self _ _)
      · exact Or.inr (List.mem_cons_of_mem _ h)
    have hskip : ∀ s' : Scan, s'.tempy = s.tempy → s'.redirA = s.redirA →
        (∀ q ∈ s.redirA, isRedirect (s'.mem.read q) = true) →
        (scanLoop piddy ps s').redirA.length = (scanLoop piddy ps s').tempy ∧
        (∀ q ∈ (scanLoop piddy ps s').redirA,
          isRedirect ((scanLoop piddy ps s').mem.read q) = true) ∧
        (∀ q ∈ (scanLoop piddy ps s').redirA, q ∈ s.redirA ∨ q ∈ p :: ps) := by
      intro s' ht hr hm
      obtain ⟨a, b, c⟩ := ih s' (by rw [hr, ht, h1]) (by rw [hr]; exact hm)
      refine ⟨a, b, ?_⟩
      intro q hq
      rcases c q hq with h | h
      · exact Or.inl (hr ▸ h)
      · exact Or.inr (List.mem_cons_of_mem _ h)
    simp only [scanLoop]
    split
    · rename_i h
      exact hop _ rfl rfl rfl (by simp [isRedirect, h])
    · split
      · rename_i h
        exact hop _ rfl rfl rfl (by simp [isRedirect, h])
      · split
        · rename_i h0
          have hnil : s.redirA = [] := by
            apply List.eq_nil_of_length_eq_zero
            rw [h1]; simpa using h0
          split
          · exact hskip _ rfl rfl (by rw [hnil]; simp)
          · exact hskip _ rfl rfl h2
        · exact hskip s rfl rfl h2

theorem redirectCommand_opened (env : Env) (st : Shell) (m : Mem)
    (redirA tokenArray arrayA : List Ptr) (r last : Ptr)
    (hr : redirA.head? = some r) (hl : tokenArray.getLast? = some last)
    (hop : isRedirect (m.read r) = true) :
    opened (redirectCommand env st m redirA tokenArray arrayA).1 =
      [(m.read last,
        if (m.read r).head? = some '>' then [.O_CREAT, .O_TRUNC, .O_WRONLY] else [.O_RDONLY],
        0o664)] := by
  unfold redirectCommand
  rw [hr, hl]
  dsimp only
  by_cases h1 : (m.read r).head? = some '>'
  · have h1' : ((m.read r).head? == some '>') = true := by simpa using h1
    rw [if_pos h1]
    simp only [h1', if_true]
    repeat' split
    all_goals simp [opened]
  · have h2 : (m.read r).head? = some '<' := by
      simp only [isRedirect, Bool.or_eq_true, beq_iff_eq] at hop
      rcases hop with h | h
      · exact absurd h h1
      · exact h
    have h1' : ((m.read r).head? == some '>') = false := by simpa using h1
    have h2' : ((m.read r).head? == some '<') = true := by simpa using h2
    rw [if_neg h1]
    simp only [h1', h2', if_true, Bool.false_eq_true, if_false]
    repeat' split
    all_goals simp [opened]

theorem classify_ok (piddy : CStr) (backgroundON bgProcess : Bool) (t : Tokens) (p : Parsed)
    (hcl : classify piddy backgroundON bgProcess t = .ok p) :
    p.scan = scanLoop piddy p.tokenArray { mem := t.mem, tempy := 0, redirA := [], arrayA := [] } := by
  unfold classify at hcl
  split at hcl
  · cases hcl
  · injection hcl with hcl
    subst hcl
    rfl

/-- Claim C4, counterexample. In `sort < in.txt -r` and in `echo > out.txt hi` the
only redirection operator is followed by `in.txt`, respectively `out.txt`, yet the
files `redirectCommand` opens are `-r` (read-only) and `hi` (create, truncate,
write-only, mode 0664). -/
theorem redirect_filename_counterexample :
    tokenStrings 1234 "sort < in.txt -r\n".toList =
      .ok ["sort".toList, "<".toList, "in.txt".toList, "-r".toList] ∧
    opened (commandLine 1234 sampleEnv Shell.initial "sort < in.txt -r\n".toList).1 =
      [("-r".toList, [.O_RDONLY], 0o664)] ∧
    tokenStrings 1234 "echo > out.txt hi\n".toList =
      .ok ["echo".toList, ">".toList, "out.txt".toList, "hi".toList] ∧
    opened (commandLine 1234 sampleEnv Shell.initial "echo > out.txt hi\n".toList).1 =
      [("hi".toList, [.O_CREAT, .O_TRUNC, .O_WRONLY], 0o664)] := by
  refine ⟨rfl, ?_, rfl, ?_⟩ <;> decide

/-- Claim C4, amended. Whenever the classifier has counted exactly one redirection
operator (`tempy = 1`), the call `redirectCommand(fd, redirA, tokenArray, arrayA,
numArgs)` of line 608 makes one `open`, of the last token `tokenArray[numArgs-1]`:
create, truncate, write-only with mode 0664 when the operator begins with `>`,
read-only when it begins with `<`. That file is the token following the operator
when the operator is the next-to-last token. A command that is not `cd`, `exit`
or `status` is dispatched to that call. -/
theorem redirectCommand_opens_last_token (pid : Int) (env : Env) (st : Shell)
    (backgroundON bgProcess : Bool) (t : Tokens) (p : Parsed)
    (hcl : classify (piddyOf pid) backgroundON bgProcess t = .ok p)
    (hone : p.scan.tempy = 1) :
    ∃ r last, p.scan.redirA = [r] ∧ r ∈ p.tokenArray ∧
      isRedirect (p.scan.mem.read r) = true ∧
      p.tokenArray.getLast? = some last ∧
      opened (redirectCommand env st p.scan.mem p.scan.redirA p.tokenArray p.scan.arrayA).1 =
        [(p.scan.mem.read last,
          if (p.scan.mem.read r).head? = some '>' then [.O_CREAT, .O_TRUNC, .O_WRONLY]
          else [.O_RDONLY],
          0o664)] ∧
      (∀ k, p.tokenArray[k]? = some r → k + 2 = p.tokenArray.length →
        p.tokenArray[k + 1]? = some last) ∧
      (∀ p0 a0, p.tokenArray.head? = some p0 → (p.scan.mem.read p0).take 2 ≠ "cd".toList →
        p.scan.arrayA.head? = some a0 → p.scan.mem.read a0 ≠ "exit".toList →
        p.scan.mem.read a0 ≠ "status".toList →
        dispatch env st p =
          (.fflush ::
            (redirectCommand env st p.scan.mem p.scan.redirA p.tokenArray p.scan.arrayA).1,
            (redirectCommand env st p.scan.mem p.scan.redirA p.tokenArray p.scan.arrayA).2)) := by
  have hsc := classify_ok _ _ _ _ _ hcl
  obtain ⟨h1, h2, h3⟩ := scanLoop_redirA (piddyOf pid) p.tokenArray
    { mem := t.mem, tempy := 0, redirA := [], arrayA := [] } rfl (by simp)
  rw [← hsc] at h1 h2 h3
  rw [hone] at h1
  obtain ⟨r, hr⟩ := List.length_eq_one.mp h1
  have hrmem : r ∈ p.tokenArray := by
    rcases h3 r (by rw [hr]; exact List.mem_singleton.mpr rfl) with h | h
    · simp at h
    · exact h
  have hrop : isRedirect (p.scan.mem.read r) = true :=
    h2 r (by rw [hr]; exact List.mem_singleton.mpr rfl)
  have hne : p.tokenArray ≠ [] := List.ne_nil_of_mem hrmem
  have hlast : p.tokenArray.getLast? = some (p.tokenArray.getLast hne) :=
    List.getLast?_eq_getLast _ hne
  refine ⟨r, p.tokenArray.getLast hne, hr, hrmem, hrop, hlast, ?_, ?_, ?_⟩
  · exact redirectCommand_opened env st p.scan.mem p.scan.redirA p.tokenArray p.scan.arrayA r _
      (by rw [hr]; rfl) hlast hrop
  · intro k _ hk
    rw [List.getLast_eq_getElem, List.getElem?_eq_getElem (by omega)]
    congr 2
    omega
  · intro p0 a0 hp0 hcd ha0 hex hst
    unfold dispatch
    have hcd' : ¬ (p.scan.mem.read p0).take 2 = ['c', 'd'] := hcd
    have hex' : ¬ p.scan.mem.read a0 = ['e', 'x', 'i', 't'] := hex
    have hst' : ¬ p.scan.mem.read a0 = ['s', 't', 'a', 't', 'u', 's'] := hst
    simp [hp0, hcd', ha0, hex', hst', hone]

/-- Witness of `redirectCommand_opens_last_token`: for `sort < in.txt -r &` the file opened is `-r`. -/
theorem redirectCommand_opens_last_token_witness :
    classify (piddyOf 1234) true false sampleTokens = .ok sampleParsed ∧
    sampleParsed.scan.tempy = 1 ∧
    opened (redirectCommand sampleEnv Shell.initial sampleParsed.scan.mem
      sampleParsed.scan.redirA sampleParsed.tokenArray sampleParsed.scan.arrayA).1 =
      [("-r".toList, [.O_RDONLY], 0o664)] := by
  obtain ⟨r, last, hr, -, -, hl, hopen, -, -⟩ :=
    redirectCommand_opens_last_token 1234 sampleEnv Shell.initial true false sampleTokens
      sampleParsed rfl rfl
  exact ⟨rfl, rfl, by decide⟩

/-! ## Evaluations at particular lines -/

/-- Claim C1, evaluated. With process id 1234 the line `echo a$$ b$$` gives the
tokens `echo`, `a1234b1234`, `a1234b1234`: both placeholder tokens point at the
one buffer `tokeee`, which has accumulated both expansions. The line
`echo a$b$$` gives `echo`, `a1234`: the token is cut at its first `$`, not at
the placeholder. -/
theorem placeholder_expansion_evaluated :
    tokenStrings 1234 "echo a$$ b$$\n".toList =
      .ok ["echo".toList, "a1234b1234".toList, "a1234b1234".toList] ∧
    tokenStrings 1234 "echo a$b$$\n".toList = .ok ["echo".toList, "a1234".toList] := by
  constructor <;> rfl

/-- Claim C2, evaluated. The line `sleep 5 > out &` dispatched while `backgroundON`
is true: `bgProcess` is set, yet the shell forks, sleeps and blocks in `wait`,
prints no `background pid is` message and leaves `bgPID` and `bgSize` as they
were. The same command without the redirection is launched in the
background. -/
theorem background_with_redirection_evaluated :
    Shell.initial.backgroundON = true ∧
    commandLine 1234 sampleEnv Shell.initial "sleep 5 > out &\n".toList =
      ([.fflush, .openFile "out".toList [.O_CREAT, .O_TRUNC, .O_WRONLY] 0o664, .fork 4321,
        .fflush, .sleep 1, .wait 4321],
       .prompt { Shell.initial with bgProcess := true }) ∧
    commandLine 1234 sampleEnv Shell.initial "sleep 5 &\n".toList =
      ([.fflush, .fork 4321, .fflush, .fflush, bgPidMsg 4321],
       .prompt { Shell.initial with bgProcess := true,
                                    bgPID := Shell.initial.bgPID.set 0 4321, bgSize := 1 }) := by
  refine ⟨rfl, ?_, ?_⟩ <;> decide

/-- Claim C9, evaluated. A line of two spaces is not discarded by `getUserCommand`,
the tokenizer finds no token in it (`numArgs = 0`) and the classifier reads
`tokenArray[-1]`. The line `&` is not discarded either and gives one token,
which the classifier drops, so that `tokenArray[0]` is NULL when line 595
compares it with `cd`. -/
theorem empty_token_sequence_evaluated :
    getUserCommand ["  ".toList] = ("  ".toList, []) ∧
    tokenStrings 1234 "  ".toList = .ok [] ∧
    (commandLine 1234 sampleEnv Shell.initial "  ".toList).2 = .fault .tokenArrayBeforeStart ∧
    getUserCommand ["&\n".toList] = ("&\n".toList, []) ∧
    tokenStrings 1234 "&\n".toList = .ok ["&".toList] ∧
    (commandLine 1234 sampleEnv Shell.initial "&\n".toList).2 = .fault .nullString := by
  refine ⟨rfl, rfl, ?_, rfl, rfl, ?_⟩ <;> decide

theorem strtokAll_ne_nil (l : CStr) (h : ∃ c ∈ l, c ≠ ' ') : strtokAll l ≠ [] := by
  induction l with
  | nil => obtain ⟨c, hc, -⟩ := h; simp at hc
  | cons c cs ih =>
    unfold strtokAll
    by_cases hc : c = ' '
    · have hcs : ∃ d ∈ cs, d ≠ ' ' := by
        obtain ⟨d, hd, hne⟩ := h
        rcases List.mem_cons.mp hd with e | e
        · exact absurd (e ▸ hc) hne
        · exact ⟨d, e, hne⟩
      simpa [hc] using ih hcs
    · have hc' : (c == ' ') = false := by simpa using hc
      simp only [hc', Bool.false_eq_true, if_false]
      repeat' split
      all_goals simp


theorem background_dispatch_without_redirection (pid : Int) (env : Env) (st : Shell)
    (t : Tokens) (p : Parsed) (p0 a0 : Ptr)
    (hamp : t.tokenArray.getLast?.map t.mem.read = some "&".toList)
    (hon : st.backgroundON = true)
    (hcl : classify (piddyOf pid) st.backgroundON st.bgProcess t = .ok p)
    (h0 : p.scan.tempy = 0)
    (hp0 : p.tokenArray.head? = some p0) (hcd : (p.scan.mem.read p0).take 2 ≠ "cd".toList)
    (ha0 : p.scan.arrayA.head? = some a0) (hex : p.scan.mem.read a0 ≠ "exit".toList)
    (hst : p.scan.mem.read a0 ≠ "status".toList)
    (hfork : 0 < env.forkRet) (hroom : st.bgSize < st.bgPID.length) :
    runTokens pid env st t =
      ([.fflush, .fork env.forkRet, .fflush, .fflush, bgPidMsg env.forkRet],
        .prompt ⟨st.backgroundON, true, st.bgPID.set st.bgSize env.forkRet, st.bgSize + 1,
          st.childExitStatus⟩) := by
  have hne : t.tokenArray ≠ [] := by
    intro h; rw [h] at hamp; simp at hamp
  have hmark := markBackground_ok st.backgroundON st.bgProcess t.mem t.tokenArray hne
  rw [if_pos hamp, hon] at hmark
  have hbg : p.bgProcess = true := by
    unfold classify at hcl
    rw [hon, hmark] at hcl
    injection hcl with hcl
    subst hcl
    rfl
  have hcd' : ¬ (p.scan.mem.read p0).take 2 = ['c', 'd'] := hcd
  have hex' : ¬ p.scan.mem.read a0 = ['e', 'x', 'i', 't'] := hex
  have hst' : ¬ p.scan.mem.read a0 = ['s', 't', 'a', 't', 'u', 's'] := hst
  have hf1 : ¬ env.forkRet < 0 := by omega
  have hf2 : ¬ env.forkRet = 0 := by omega
  simp [runTokens, hcl, dispatch, hp0, hcd', ha0, hex', hst', h0, otherCommands,
    otherCommandsParent, hbg, hf1, hf2, hroom, bgPidMsg]

end SmallShell
